import Mathlib

/-!
A shallow embedding of the MediaRG photo-sharing API handlers
(`src/index.js`, `src/unnamed/part_000`, `src/unnamed/part_001`).

The three files are near-identical Express apps.  We embed the pure
request-processing logic of each handler: request-body fields arrive as
JavaScript values, the Cosmos document stores are modelled as lists of
document records, `items.upsert` replaces the document with the same `id`
(appending when absent), `items.create` appends, and the SQL queries
(`ORDER BY c.createdAt DESC`, `WHERE CONTAINS(LOWER(...), @q)`) are
modelled as sorting and filtering of those lists.  Timestamps
(`new Date().toISOString()`, `Date.now()`) and `Math.random()` suffixes
are passed in as explicit parameters since the handlers treat them as
opaque inputs.

The JavaScript string primitives the handlers use (`trim`, `split`,
`slice`, `toLowerCase`) are given structurally recursive models over the
character list of a `String`, so that every definition evaluates by
kernel reduction; they coincide with the ECMAScript behaviour on the
ASCII content that appears throughout this API.
-/

attribute [local semireducible] Rat.add Rat.mul Rat.inv Rat.sub

namespace MediaRG

/-- JavaScript `x || dflt` for an optional string field of `req.body` /
`req.query`: an absent field and the empty string are both falsy and fall
back to the default. -/
def jsOr (v : Option String) (dflt : String) : String :=
  match v with
  | none => dflt
  | some s => if s = "" then dflt else s

/-- JavaScript `s.trim()`: remove leading and trailing whitespace. -/
def jsTrim (s : String) : String :=
  ⟨((s.data.dropWhile Char.isWhitespace).reverse.dropWhile Char.isWhitespace).reverse⟩

/-- JavaScript `s.split(c)` for a one-character separator. -/
def splitOnChar (c : Char) (s : String) : List String :=
  (s.data.splitOn c).map (fun cs => ⟨cs⟩)

/-- JavaScript `s.slice(0, n)`: the first `n` characters. -/
def jsSlice (n : Nat) (s : String) : String :=
  ⟨s.data.take n⟩

/-- JavaScript `s.toLowerCase()` (ASCII range). -/
def jsToLower (s : String) : String :=
  ⟨s.data.map Char.toLower⟩

/-- A JavaScript value as it can appear in a parsed JSON request body.
`num` is a finite number (JSON numbers are modelled as rationals);
`nonFiniteNum` stands for `NaN` and `±Infinity`. -/
inductive JSValue where
  | num : ℚ → JSValue
  | nonFiniteNum : JSValue
  | str : String → JSValue
  | bool : Bool → JSValue
  | null : JSValue
  | undefined : JSValue
deriving DecidableEq

/-- Digits-only parse of a nonempty character list, as a natural number. -/
def parseNatDigits (cs : List Char) : Option Nat :=
  if cs = [] then none
  else if cs.all Char.isDigit then
    some (cs.foldl (fun acc c => acc * 10 + (c.toNat - 48)) 0)
  else none

/-- ECMAScript `ToNumber` on strings, restricted to optionally signed
decimal literals (`"3"`, `"-2.5"`, `".5"`, `"12."`; an empty or
whitespace-only string coerces to 0).  Every other string (including
`"Infinity"`, hex and exponent forms) is mapped to `none`, i.e. treated
as not coercing to a finite number; the handlers only distinguish finite
results, via `Number.isFinite`. -/
def jsStringToNumber (s : String) : Option ℚ :=
  let t := jsTrim s
  if t = "" then some 0
  else
    let (sign, body) : ℚ × List Char :=
      match t.data with
      | '-' :: rest => (-1, rest)
      | '+' :: rest => (1, rest)
      | cs => (1, cs)
    match body.splitOn '.' with
    | [ip] => (parseNatDigits ip).map (fun n => sign * n)
    | [ip, fp] =>
      if ip = [] ∧ fp = [] then none
      else
        let ipart : Option ℚ :=
          if ip = [] then some 0 else (parseNatDigits ip).map (Nat.cast)
        let fpart : Option ℚ :=
          if fp = [] then some 0
          else (parseNatDigits fp).map (fun n => (n : ℚ) / (10 ^ fp.length))
        match ipart, fpart with
        | some i, some f => some (sign * (i + f))
        | _, _ => none
    | _ => none

/-- JavaScript `Number(v)` for a request-body value, returning `some q`
when the coercion is a finite number `q` and `none` when it is `NaN` or
infinite (`Number(true) = 1`, `Number(false) = 0`, `Number(null) = 0`,
`Number(undefined) = NaN`). -/
def toNumber : JSValue → Option ℚ
  | .num q => some q
  | .nonFiniteNum => none
  | .str s => jsStringToNumber s
  | .bool b => some (if b then 1 else 0)
  | .null => some 0
  | .undefined => none

/-! ## Ratings (`POST /api/photos/:id/rating`, `GET /api/photos/:id/rating`) -/

/-- A document of the `ratings` Cosmos container, as built by the
rating-submission handlers. -/
structure RatingDoc where
  id : String
  photoId : String
  userKey : String
  value : ℚ
  updatedAt : String
deriving DecidableEq

/-- Cosmos `items.upsert(doc)`: replace the document carrying the same
`id`, or insert the document when no such `id` is present. -/
def upsert (store : List RatingDoc) (doc : RatingDoc) : List RatingDoc :=
  if store.any (fun d => d.id = doc.id) then
    store.map (fun d => if d.id = doc.id then doc else d)
  else
    store ++ [doc]

/-- `String(req.body?.userKey || "anon").slice(0, 120)`. -/
def processedUserKey (uk : Option String) : String :=
  jsSlice 120 (jsOr uk "anon")

/-- The deterministic composite rating id `photoId::userKey`. -/
def ratingIdOf (photoId : String) (uk : Option String) : String :=
  photoId ++ "::" ++ processedUserKey uk

/-- Outcome of the rating-submission handler: `badRequest` is the
`res.status(400).json({error})` branch, `created` the
`res.status(201)` branch carrying the saved document. -/
inductive PostRatingResult where
  | badRequest : String → PostRatingResult
  | created : RatingDoc → PostRatingResult
deriving DecidableEq

/-- The value with which a submission is accepted: `some q` exactly when
`Number(value)` is finite and `1 ≤ q ≤ 5` (the handler rejects when
`!Number.isFinite(value) || value < 1 || value > 5`). -/
def acceptedValue (v : JSValue) : Option ℚ :=
  match toNumber v with
  | none => none
  | some q => if q < 1 ∨ 5 < q then none else some q

/-- `POST /api/photos/:id/rating` (identical logic in all three source
files): coerce `req.body?.value` with `Number`, reject unless the result
is finite and in `[1, 5]`, otherwise upsert the document with id
`photoId::userKey`. Returns the HTTP outcome and the ratings store after
the request. -/
def postRating (store : List RatingDoc) (photoId : String) (bodyValue : JSValue)
    (bodyUserKey : Option String) (now : String) :
    PostRatingResult × List RatingDoc :=
  match toNumber bodyValue with
  | none => (.badRequest "Rating must be 1..5", store)
  | some v =>
    if v < 1 ∨ 5 < v then (.badRequest "Rating must be 1..5", store)
    else
      let userKey := processedUserKey bodyUserKey
      let id := photoId ++ "::" ++ userKey
      let doc : RatingDoc :=
        { id := id, photoId := photoId, userKey := userKey, value := v, updatedAt := now }
      (.created doc, upsert store doc)

/-- Submit a sequence of rating requests for one `(photoId, userKey)`
pair; each element carries the body value and the wall-clock timestamp of
that request. -/
def submitRatings (store : List RatingDoc) (photoId : String)
    (bodyUserKey : Option String) (subs : List (JSValue × String)) : List RatingDoc :=
  subs.foldl (fun st p => (postRating st photoId p.1 bodyUserKey p.2).2) store

/-- The rating document an accepted submission writes. -/
def ratingDocFor (pid : String) (uk : Option String) (q : ℚ) (now : String) : RatingDoc :=
  ⟨ratingIdOf pid uk, pid, processedUserKey uk, q, now⟩

/-- `Number(x.toFixed(2))`: round to two decimal places (ECMAScript
`toFixed` picks the larger candidate on ties, which is `round` on ℚ). -/
def round2 (q : ℚ) : ℚ :=
  ((round (q * 100) : ℤ) : ℚ) / 100

/-- The stored rating values belonging to a photo
(`SELECT c.value FROM c WHERE c.photoId=@photoId`). -/
def ratingValues (store : List RatingDoc) (photoId : String) : List ℚ :=
  (store.filter (fun d => d.photoId = photoId)).map (fun d => d.value)

/-- `GET /api/photos/:id/rating` as written in `src/unnamed/part_001`:
collect the photo's stored values, `count ? sum / count : 0`, then
`Number(avg.toFixed(2))`.  The source's `map(Number).filter(isFinite)`
step is the identity here: stored values are finite rationals by
construction of `postRating`. -/
def ratingSummary (store : List RatingDoc) (photoId : String) : Nat × ℚ :=
  let values := ratingValues store photoId
  let count := values.length
  let avg : ℚ := if count = 0 then 0 else values.sum / count
  (count, round2 avg)

/-- `GET /api/photos/:id/rating` as written in `src/index.js` and
`src/unnamed/part_000`: the store-side aggregate `COUNT(1)` / `AVG(c.value)`
followed by `count > 0 ? Number(Number(agg.avg).toFixed(2)) : 0`. -/
def ratingSummaryAgg (store : List RatingDoc) (photoId : String) : Nat × ℚ :=
  let values := ratingValues store photoId
  let count := values.length
  (count, if count > 0 then round2 (values.sum / count) else 0)

/-- The rating summary as §4.4 of the spec words it: count, and the
arithmetic mean rounded to 2 decimal places, with average defined as 0
when the count is zero. -/
def specSummary (values : List ℚ) : Nat × ℚ :=
  (values.length,
    if values.length = 0 then 0 else round2 (values.sum / values.length))

/-! ## Photos (`POST /api/photos`, `GET /api/photos`) -/

/-- `safeArrayFromComma` from `src/index.js` (and, identically,
`peopleList` from `src/unnamed/part_000`): falsy input gives `[]`,
otherwise split on commas, trim each entry, drop falsy (empty) entries,
and keep at most the first 30 (`.slice(0, 30)`). -/
def safeArrayFromComma (text : String) : List String :=
  if text = "" then []
  else
    ((((splitOnChar ',' text).map jsTrim).filter (fun s => s != "")).take 30)

/-- `toPeopleArray` from `src/unnamed/part_001`: the same split, trim and
drop-empty steps, with no `.slice(0, 30)` cap. -/
def toPeopleArray (raw : String) : List String :=
  if raw = "" then []
  else
    (((splitOnChar ',' raw).map jsTrim).filter (fun s => s != ""))

/-- A document of the `photos` Cosmos container. -/
structure PhotoDoc where
  id : String
  title : String
  caption : String
  location : String
  people : List String
  url : String
  blobName : String
  createdAt : String
deriving DecidableEq

/-- `(file.originalname || "").split(".").pop() || "jpg"`. -/
def extOf (originalname : String) : String :=
  match (splitOnChar '.' originalname).getLast? with
  | none => "jpg"
  | some e => if e = "" then "jpg" else e

/-- `POST /api/photos` from `src/index.js`, with the two effectful steps
(the lazy `createIfNotExists` on the blob container and the
`uploadData` call) represented by their outcomes.  The result is the HTTP
status together with the list of Photo documents written to the Metadata
Store during the request; a failing `await` raises and lands in the
handler's `catch`, which answers 500 without reaching the
`photos.items.upsert(doc)` line. -/
def postPhoto (file : Option String) (titleRaw captionRaw locationRaw peopleRaw : String)
    (containerOutcome : Except String Unit) (uploadOutcome : Except String String)
    (nowMs : Nat) (createdAt : String) : Nat × List PhotoDoc :=
  let title := jsTrim titleRaw
  let caption := jsTrim captionRaw
  let location := jsTrim locationRaw
  let people := safeArrayFromComma peopleRaw
  match file with
  | none => (400, [])
  | some originalname =>
    if title = "" then (400, [])
    else
      match containerOutcome with
      | .error _ => (500, [])
      | .ok _ =>
        let photoId := toString nowMs
        let blobName := photoId ++ "." ++ extOf originalname
        match uploadOutcome with
        | .error _ => (500, [])
        | .ok url =>
          let doc : PhotoDoc :=
            { id := photoId, title := title, caption := caption,
              location := location, people := people, url := url,
              blobName := blobName, createdAt := createdAt }
          (201, [doc])

/-- Lexicographic comparison of character lists by code point, the order
the store applies to the ISO-8601 `createdAt` strings. -/
def charListLE : List Char → List Char → Bool
  | [], _ => true
  | _ :: _, [] => false
  | a :: as, b :: bs =>
    if a.toNat < b.toNat then true
    else if b.toNat < a.toNat then false
    else charListLE as bs

/-- String comparison underlying `ORDER BY c.createdAt`. -/
def strLE (a b : String) : Bool :=
  charListLE a.data b.data

/-- `ORDER BY c.createdAt DESC`: `a` may stand before `b` when its
timestamp is the later one. -/
def createdDesc (a b : PhotoDoc) : Prop :=
  strLE b.createdAt a.createdAt = true

instance : DecidableRel createdDesc :=
  fun _ _ => inferInstanceAs (Decidable (_ = true))

/-- `GET /api/photos` without a search term
(`SELECT * FROM c ORDER BY c.createdAt DESC`): the unfiltered list,
newest first. -/
def listPhotos (store : List PhotoDoc) : List PhotoDoc :=
  store.insertionSort createdDesc

/-- `CONTAINS(LOWER(field), @q)`: `q` occurs as a substring of the
lower-cased field. -/
def containsLower (field q : String) : Bool :=
  decide (q.data <:+: (jsToLower field).data)

/-- The `WHERE` clause of the search query in `src/unnamed/part_001`:
`CONTAINS(LOWER(c.title), @q) OR CONTAINS(LOWER(c.caption), @q) OR
CONTAINS(LOWER(c.location), @q)`. -/
def matchesSearch (q : String) (p : PhotoDoc) : Bool :=
  containsLower p.title q || containsLower p.caption q || containsLower p.location q

/-- `GET /api/photos` from `src/unnamed/part_001`:
`q = String(req.query.q || "").trim().toLowerCase()`; a truthy `q` runs
the filtered query (matching rows, newest first), a falsy one the
unfiltered query. -/
def searchPhotos (store : List PhotoDoc) (qraw : Option String) : List PhotoDoc :=
  let q := jsToLower (jsTrim (jsOr qraw ""))
  if q = "" then store.insertionSort createdDesc
  else (store.filter (matchesSearch q)).insertionSort createdDesc

/-! ## Comments (`POST /api/photos/:id/comments`) -/

/-- A document of the `comments` Cosmos container. -/
structure CommentDoc where
  id : String
  photoId : String
  name : String
  text : String
  createdAt : String
deriving DecidableEq

/-- Outcome of the comment-creation handler. -/
inductive PostCommentResult where
  | badRequest : String → PostCommentResult
  | created : CommentDoc → PostCommentResult
deriving DecidableEq

/-- The created document of a comment-creation outcome (a placeholder
document for the rejection branch). -/
def commentDocOf : PostCommentResult → CommentDoc
  | .badRequest _ => { id := "", photoId := "", name := "", text := "", createdAt := "" }
  | .created d => d

/-- `POST /api/photos/:id/comments` from `src/index.js`:
`name = String(req.body?.name || "").trim().slice(0, 80)`,
`text = String(req.body?.text || "").trim().slice(0, 1000)`, reject when
`text` is empty, else create (append) the document with
`id = Date.now() + "-" + randomSuffix` and `name: name || "Anonymous"`. -/
def postCommentIndex (store : List CommentDoc) (photoId : String)
    (nameB textB : Option String) (nowMs : Nat) (rand : String)
    (createdAt : String) : PostCommentResult × List CommentDoc :=
  let name := jsSlice 80 (jsTrim (jsOr nameB ""))
  let text := jsSlice 1000 (jsTrim (jsOr textB ""))
  if text = "" then (.badRequest "text is required", store)
  else
    let doc : CommentDoc :=
      { id := toString nowMs ++ "-" ++ rand, photoId := photoId,
        name := if name = "" then "Anonymous" else name,
        text := text, createdAt := createdAt }
    (.created doc, store ++ [doc])

/-- `POST /api/photos/:id/comments` from `src/unnamed/part_001`:
`name = String(req.body?.name || "Anonymous").trim()`,
`text = String(req.body?.text || "").trim()` (no length caps), reject when
`text` is empty, else create (append) the document with
`id = photoId + "-" + Date.now() + "-" + randomSuffix`. -/
def postCommentPart001 (store : List CommentDoc) (photoId : String)
    (nameB textB : Option String) (nowMs : Nat) (rand : String)
    (createdAt : String) : PostCommentResult × List CommentDoc :=
  let name := jsTrim (jsOr nameB "Anonymous")
  let text := jsTrim (jsOr textB "")
  if text = "" then (.badRequest "Comment text required", store)
  else
    let doc : CommentDoc :=
      { id := photoId ++ "-" ++ toString nowMs ++ "-" ++ rand, photoId := photoId,
        name := name, text := text, createdAt := createdAt }
    (.created doc, store ++ [doc])

/-! ## Helper lemmas -/

theorem jsToLower_empty_iff (s : String) : jsToLower s = "" ↔ s = "" := by
  cases s with
  | mk data =>
    simp [jsToLower, String.ext_iff]

theorem jsSlice_empty_iff (n : Nat) (s : String) (hn : n ≠ 0) :
    jsSlice n s = "" ↔ s = "" := by
  cases s with
  | mk data =>
    simp [jsSlice, String.ext_iff, List.take_eq_nil_iff, hn]

theorem postRating_accepted (store : List RatingDoc) (pid : String)
    (uk : Option String) (now : String) (bv : JSValue) (q : ℚ)
    (h : acceptedValue bv = some q) :
    postRating store pid bv uk now =
      (.created (ratingDocFor pid uk q now), upsert store (ratingDocFor pid uk q now)) := by
  unfold acceptedValue at h
  cases hv : toNumber bv with
  | none =>
    rw [hv] at h
    exact absurd h (by simp)
  | some v =>
    rw [hv] at h
    dsimp only at h
    by_cases hcond : v < 1 ∨ 5 < v
    · rw [if_pos hcond] at h
      exact absurd h (by simp)
    · rw [if_neg hcond] at h
      obtain rfl : v = q := by simpa using h
      unfold postRating
      rw [hv]
      dsimp only
      rw [if_neg hcond]
      rfl

theorem filter_upsert_not_present (store : List RatingDoc) (doc : RatingDoc)
    (key : String) (hkey : doc.id = key) (h : ∀ d ∈ store, d.id ≠ key) :
    (upsert store doc).filter (fun d => d.id = key) = [doc] := by
  unfold upsert
  rw [hkey]
  have hany : ¬(store.any (fun d => decide (d.id = key)) = true) := by
    simp only [List.any_eq_true, decide_eq_true_eq, not_exists, not_and]
    exact h
  rw [if_neg hany, List.filter_append]
  have hnil : store.filter (fun d => decide (d.id = key)) = [] :=
    List.filter_eq_nil_iff.mpr (fun d hd => by simpa using h d hd)
  rw [hnil]
  simp [hkey]

theorem filter_map_overwrite (store : List RatingDoc) (doc : RatingDoc)
    (key : String) (hkey : doc.id = key) :
    (store.map (fun d => if d.id = key then doc else d)).filter (fun d => d.id = key)
      = (store.filter (fun d => d.id = key)).map (fun _ => doc) := by
  induction store with
  | nil => rfl
  | cons d rest ih =>
    by_cases hd : d.id = key
    · simp [hd, hkey, ih]
    · simp [hd, ih]

theorem filter_upsert_present (store : List RatingDoc) (doc d0 : RatingDoc)
    (key : String) (hkey : doc.id = key)
    (h : store.filter (fun d => d.id = key) = [d0]) :
    (upsert store doc).filter (fun d => d.id = key) = [doc] := by
  unfold upsert
  rw [hkey]
  have hmem : d0 ∈ store.filter (fun d => decide (d.id = key)) := by
    rw [h]
    exact List.mem_singleton_self _
  have hany : store.any (fun d => decide (d.id = key)) = true := by
    rw [List.any_eq_true]
    rcases List.mem_filter.mp hmem with ⟨hm, hp⟩
    exact ⟨d0, hm, hp⟩
  rw [if_pos hany, filter_map_overwrite _ _ _ hkey, h]
  rfl

theorem submitRatings_append (store : List RatingDoc) (pid : String)
    (uk : Option String) (subs : List (JSValue × String)) (p : JSValue × String) :
    submitRatings store pid uk (subs ++ [p])
      = (postRating (submitRatings store pid uk subs) pid p.1 uk p.2).2 := by
  unfold submitRatings
  rw [List.foldl_append]
  rfl

theorem submitRatings_filter (pid : String) (uk : Option String)
    (subs : List (JSValue × String)) :
    ∀ (store : List RatingDoc),
      (∀ p ∈ subs, (acceptedValue p.1).isSome = true) →
      (∀ d ∈ store, d.id ≠ ratingIdOf pid uk) →
      (submitRatings store pid uk subs).filter (fun d => d.id = ratingIdOf pid uk)
        = match subs.getLast? with
          | none => []
          | some lastp => [ratingDocFor pid uk ((acceptedValue lastp.1).getD 0) lastp.2] := by
  induction subs using List.reverseRecOn with
  | nil =>
    intro store _ hclean
    exact List.filter_eq_nil_iff.mpr (fun d hd => by simpa using hclean d hd)
  | append_singleton subs p ih =>
    intro store hval hclean
    obtain ⟨q, hq⟩ := Option.isSome_iff_exists.mp (hval p (by simp))
    rw [submitRatings_append, postRating_accepted _ _ _ _ _ q hq,
      List.getLast?_concat]
    dsimp only
    rw [hq, Option.getD_some]
    rcases hgl : subs.getLast? with _ | lastp
    · have hsubs : subs = [] := by
        rwa [List.getLast?_eq_none_iff] at hgl
      subst hsubs
      exact filter_upsert_not_present _ _ _ rfl hclean
    · have hih := ih store (fun p' hp' => hval p' (by simp [hp'])) hclean
      rw [hgl] at hih
      exact filter_upsert_present _ _ _ _ rfl hih

theorem charListLE_total : ∀ as bs : List Char,
    charListLE as bs = true ∨ charListLE bs as = true := by
  intro as
  induction as with
  | nil =>
    intro bs
    left
    rfl
  | cons a as ih =>
    intro bs
    cases bs with
    | nil =>
      right
      rfl
    | cons b bs =>
      show (if a.toNat < b.toNat then true
          else if b.toNat < a.toNat then false else charListLE as bs) = true ∨
        (if b.toNat < a.toNat then true
          else if a.toNat < b.toNat then false else charListLE bs as) = true
      rcases Nat.lt_trichotomy a.toNat b.toNat with h | h | h
      · left
        rw [if_pos h]
      · have h1 : ¬a.toNat < b.toNat := by omega
        have h2 : ¬b.toNat < a.toNat := by omega
        rw [if_neg h1, if_neg h2, if_neg h2, if_neg h1]
        exact ih bs
      · right
        rw [if_pos h]

theorem charListLE_trans : ∀ as bs cs : List Char,
    charListLE as bs = true → charListLE bs cs = true → charListLE as cs = true := by
  intro as
  induction as with
  | nil =>
    intro bs cs _ _
    rfl
  | cons a as ih =>
    intro bs cs h1 h2
    cases bs with
    | nil => exact absurd h1 (by simp [charListLE])
    | cons b bs =>
      cases cs with
      | nil => exact absurd h2 (by simp [charListLE])
      | cons c cs =>
        revert h1 h2
        show (if a.toNat < b.toNat then true
            else if b.toNat < a.toNat then false else charListLE as bs) = true →
          (if b.toNat < c.toNat then true
            else if c.toNat < b.toNat then false else charListLE bs cs) = true →
          (if a.toNat < c.toNat then true
            else if c.toNat < a.toNat then false else charListLE as cs) = true
        intro h1 h2
        by_cases hab : a.toNat < b.toNat
        · by_cases hbc : b.toNat < c.toNat
          · rw [if_pos (by omega : a.toNat < c.toNat)]
          · by_cases hcb : c.toNat < b.toNat
            · rw [if_neg hbc, if_pos hcb] at h2
              exact absurd h2 (by simp)
            · rw [if_pos (by omega : a.toNat < c.toNat)]
        · by_cases hba : b.toNat < a.toNat
          · rw [if_neg hab, if_pos hba] at h1
            exact absurd h1 (by simp)
          · rw [if_neg hab, if_neg hba] at h1
            by_cases hbc : b.toNat < c.toNat
            · rw [if_pos (by omega : a.toNat < c.toNat)]
            · by_cases hcb : c.toNat < b.toNat
              · rw [if_neg hbc, if_pos hcb] at h2
                exact absurd h2 (by simp)
              · rw [if_neg hbc, if_neg hcb] at h2
                rw [if_neg (by omega : ¬a.toNat < c.toNat),
                  if_neg (by omega : ¬c.toNat < a.toNat)]
                exact ih bs cs h1 h2

instance : IsTotal PhotoDoc createdDesc :=
  ⟨fun a b => charListLE_total b.createdAt.data a.createdAt.data⟩

instance : IsTrans PhotoDoc createdDesc :=
  ⟨fun _ b _ hab hbc => charListLE_trans _ b.createdAt.data _ hbc hab⟩

theorem filter_orderedInsert {α : Type} (r : α → α → Prop) [DecidableRel r]
    [IsTrans α r] (p : α → Bool) (a : α) (hpa : p a = true) :
    ∀ m : List α, m.Sorted r →
      (m.filter p).orderedInsert r a = (m.orderedInsert r a).filter p := by
  intro m
  induction m with
  | nil =>
    intro _
    simp [List.orderedInsert, hpa]
  | cons y ys ih =>
    intro hs
    have hys : ys.Sorted r := (List.sorted_cons.mp hs).2
    have hyall : ∀ z ∈ ys, r y z := (List.sorted_cons.mp hs).1
    by_cases hray : r a y
    · rw [List.orderedInsert, if_pos hray]
      by_cases hpy : p y
      · simp only [List.filter_cons, hpa, hpy, if_true]
        rw [List.orderedInsert, if_pos hray]
      · simp only [List.filter_cons, hpa, hpy, Bool.false_eq_true, if_false, if_true]
        cases hF : ys.filter p with
        | nil => simp [List.orderedInsert]
        | cons z zs =>
          have hz : z ∈ ys.filter p := by
            rw [hF]
            exact List.mem_cons_self z zs
          have hzy : r y z := hyall z (List.mem_of_mem_filter hz)
          rw [List.orderedInsert, if_pos (IsTrans.trans a y z hray hzy)]
    · rw [List.orderedInsert, if_neg hray]
      by_cases hpy : p y
      · simp only [List.filter_cons, hpy, if_true]
        rw [List.orderedInsert, if_neg hray, ih hys]
      · simp only [List.filter_cons, hpy, Bool.false_eq_true, if_false]
        exact ih hys

theorem filter_orderedInsert_neg {α : Type} (r : α → α → Prop) [DecidableRel r]
    (p : α → Bool) (a : α) (hpa : p a = false) :
    ∀ m : List α, (m.orderedInsert r a).filter p = m.filter p := by
  intro m
  induction m with
  | nil =>
    simp [List.orderedInsert, hpa]
  | cons y ys ih =>
    by_cases hray : r a y
    · rw [List.orderedInsert, if_pos hray]
      simp [List.filter_cons, hpa]
    · rw [List.orderedInsert, if_neg hray]
      simp only [List.filter_cons, ih]

theorem insertionSort_filter {α : Type} (r : α → α → Prop) [DecidableRel r]
    [IsTrans α r] [IsTotal α r] (p : α → Bool) :
    ∀ l : List α, (l.filter p).insertionSort r = (l.insertionSort r).filter p := by
  intro l
  induction l with
  | nil => rfl
  | cons a l ih =>
    rw [List.insertionSort]
    by_cases hpa : p a
    · simp only [List.filter_cons, hpa, if_true]
      rw [List.insertionSort, ih,
        filter_orderedInsert r p a hpa _ (List.sorted_insertionSort r l)]
    · simp only [List.filter_cons, hpa, Bool.false_eq_true, if_false]
      rw [ih, filter_orderedInsert_neg r p a (Bool.eq_false_iff.mpr hpa)]

/-! ## Theorems about the claims -/

/-- C2: the rating summary of a photo is the count of its stored values
together with their arithmetic mean rounded to 2 decimal places, and a
photo with zero ratings summarizes to count 0 and average 0 (not an
error value); zero ratings give `(0, 0)` and values `[5, 4, 3]` give
`(3, 4.00)`.  Both the `part_001` in-process computation and the
`index.js`/`part_000` store-side aggregate agree with the spec's
formula. -/
theorem rating_summary_correct (store : List RatingDoc) (photoId : String) :
    ratingSummary store photoId = specSummary (ratingValues store photoId) ∧
    ratingSummaryAgg store photoId = ratingSummary store photoId ∧
    ratingSummary [] "p" = (0, 0) ∧
    ratingSummary
      [⟨"p::u1", "p", "u1", 5, "t1"⟩, ⟨"p::u2", "p", "u2", 4, "t2"⟩,
       ⟨"p::u3", "p", "u3", 3, "t3"⟩] "p" = (3, 4) := by
  refine ⟨?_, ?_, by decide, by decide⟩
  · unfold ratingSummary specSummary
    by_cases h : (ratingValues store photoId).length = 0
    · simp [h, round2]
    · simp [h]
  · unfold ratingSummaryAgg ratingSummary
    by_cases h : (ratingValues store photoId).length = 0
    · simp [h, round2]
    · simp [h, Nat.pos_of_ne_zero h]

/-- C3: a rating submission whose body value does not coerce to a finite
number, or whose coerced value lies outside `[1, 5]`, is answered with
the 400 validation error and leaves the ratings store unchanged. -/
theorem rating_invalid_rejected (store : List RatingDoc) (pid : String)
    (uk : Option String) (now : String) (bv : JSValue)
    (h : toNumber bv = none ∨ ∃ q, toNumber bv = some q ∧ (q < 1 ∨ 5 < q)) :
    postRating store pid bv uk now = (.badRequest "Rating must be 1..5", store) := by
  unfold postRating
  rcases h with h | ⟨q, hq, hrange⟩
  · rw [h]
  · rw [hq]
    simp [if_pos hrange]

/-- Witness for C3: the spec's own scenario, value 6, is rejected with no
record created. -/
theorem rating_invalid_rejected_witness :
    postRating [] "p" (JSValue.num 6) none "t" = (.badRequest "Rating must be 1..5", []) :=
  rating_invalid_rejected [] "p" none "t" (JSValue.num 6)
    (Or.inr ⟨6, rfl, Or.inr (by norm_num)⟩)

/-- C10: rating validation acts on the numeric coercion of the body
value: whenever `Number(value)` is a finite `q` with `1 ≤ q ≤ 5` the
submission is accepted and the stored document carries exactly `q`,
and whenever the coercion is `NaN`/infinite or out of range the
submission is rejected with no write. -/
theorem rating_coercion_semantics (store : List RatingDoc) (pid : String)
    (uk : Option String) (now : String) (bv : JSValue) :
    (∀ q, toNumber bv = some q → 1 ≤ q → q ≤ 5 →
      postRating store pid bv uk now =
        (.created ⟨ratingIdOf pid uk, pid, processedUserKey uk, q, now⟩,
         upsert store ⟨ratingIdOf pid uk, pid, processedUserKey uk, q, now⟩)) ∧
    ((toNumber bv = none ∨ ∃ q, toNumber bv = some q ∧ (q < 1 ∨ 5 < q)) →
      postRating store pid bv uk now = (.badRequest "Rating must be 1..5", store)) := by
  constructor
  · intro q hq h1 h5
    unfold postRating
    rw [hq]
    have hcond : ¬(q < 1 ∨ 5 < q) := by
      push_neg
      exact ⟨h1, h5⟩
    simp only [if_neg hcond]
    rfl
  · exact rating_invalid_rejected store pid uk now bv

/-- Witness for C10: the numeric string `"3"` and the boolean `true`
(which coerces to 1) are accepted and stored with their coerced values,
while `NaN` is rejected. -/
theorem rating_coercion_semantics_witness :
    postRating [] "p" (JSValue.str "3") none "t" =
      (.created ⟨"p::anon", "p", "anon", 3, "t"⟩, [⟨"p::anon", "p", "anon", 3, "t"⟩]) ∧
    postRating [] "p" (JSValue.bool true) none "t" =
      (.created ⟨"p::anon", "p", "anon", 1, "t"⟩, [⟨"p::anon", "p", "anon", 1, "t"⟩]) ∧
    postRating [] "p" JSValue.nonFiniteNum none "t" =
      (.badRequest "Rating must be 1..5", []) := by
  refine ⟨?_, ?_, ?_⟩
  · have h := (rating_coercion_semantics [] "p" none "t" (JSValue.str "3")).1 3
      (by decide) (by decide) (by decide)
    exact h.trans (by decide)
  · have h := (rating_coercion_semantics [] "p" none "t" (JSValue.bool true)).1 1
      (by decide) (by decide) (by decide)
    exact h.trans (by decide)
  · exact (rating_coercion_semantics [] "p" none "t" JSValue.nonFiniteNum).2
      (Or.inl rfl)

/-- Counterexample for C4: the handler accepts the non-integer value 3.5
(`Number(3.5)` is finite and within `[1, 5]`) and stores it as is, so
not every stored rating value is an integer. -/
theorem rating_nonintegral_accepted :
    postRating [] "p" (JSValue.num (7 / 2)) none "t0" =
      (.created ⟨"p::anon", "p", "anon", 7 / 2, "t0"⟩,
       [⟨"p::anon", "p", "anon", 7 / 2, "t0"⟩]) ∧
    ((7 : ℚ) / 2).den ≠ 1 := by
  constructor
  · decide
  · decide

/-- C4 (amended): every stored rating value is a finite number in the
inclusive range `[1, 5]` — the code enforces the range but not
integrality, so non-integer values such as 3.5 are stored as well. -/
theorem rating_range_only (store : List RatingDoc) (pid : String)
    (uk : Option String) (now : String) (bv : JSValue) (doc : RatingDoc)
    (h : (postRating store pid bv uk now).1 = .created doc) :
    1 ≤ doc.value ∧ doc.value ≤ 5 := by
  unfold postRating at h
  cases hv : toNumber bv with
  | none =>
    rw [hv] at h
    exact absurd h (by simp)
  | some v =>
    rw [hv] at h
    dsimp only at h
    by_cases hcond : v < 1 ∨ 5 < v
    · rw [if_pos hcond] at h
      exact absurd h (by simp)
    · rw [if_neg hcond] at h
      push_neg at hcond
      simp only [PostRatingResult.created.injEq] at h
      rw [← h]
      exact ⟨hcond.1, hcond.2⟩

/-- Witness for C4's amended theorem: a concrete accepted submission. -/
theorem rating_range_only_witness :
    1 ≤ (RatingDoc.mk "p::anon" "p" "anon" 3 "t").value ∧
    (RatingDoc.mk "p::anon" "p" "anon" 3 "t").value ≤ 5 :=
  rating_range_only [] "p" none "t" (JSValue.num 3)
    (RatingDoc.mk "p::anon" "p" "anon" 3 "t") (by decide)

/-- Counterexample for C5: `toPeopleArray` (the people parser of
`src/unnamed/part_001`) applies no 30-entry cap, so a photo-creation
request with 31 comma-separated entries stores all 31 of them. -/
theorem people_cap_missing_part001 :
    (toPeopleArray "a,a,a,a,a,a,a,a,a,a,a,a,a,a,a,a,a,a,a,a,a,a,a,a,a,a,a,a,a,a,a").length
      = 31 ∧
    ¬((toPeopleArray
        "a,a,a,a,a,a,a,a,a,a,a,a,a,a,a,a,a,a,a,a,a,a,a,a,a,a,a,a,a,a,a").length ≤ 30) := by
  constructor
  · decide
  · decide

/-- C5 (amended): the people field is split on commas into trimmed
entries with empty entries dropped, order preserved, duplicates kept and
no case normalization, and `"Alice, Bob, , Alice"` parses to
`["Alice", "Bob", "Alice"]` in every variant; the 30-entry cap is applied
by `safeArrayFromComma` (`src/index.js` / `src/unnamed/part_000`) but not
by `toPeopleArray` (`src/unnamed/part_001`), whose output
`safeArrayFromComma` merely truncates. -/
theorem people_parsing_amended (t : String) :
    safeArrayFromComma t = (toPeopleArray t).take 30 ∧
    (safeArrayFromComma t).length ≤ 30 ∧
    safeArrayFromComma "Alice, Bob, , Alice" = ["Alice", "Bob", "Alice"] ∧
    toPeopleArray "Alice, Bob, , Alice" = ["Alice", "Bob", "Alice"] := by
  have htake : safeArrayFromComma t = (toPeopleArray t).take 30 := by
    unfold safeArrayFromComma toPeopleArray
    by_cases h : t = "" <;> simp [h]
  refine ⟨htake, ?_, by decide, by decide⟩
  rw [htake]
  exact List.length_take_le 30 _

/-- C6: in the photo-upload handler the Metadata Store write happens only
after the blob upload has succeeded: when the upload step fails, the
handler answers from its `catch` block and writes no Photo document, and
conversely any execution that wrote a document had a successful upload. -/
theorem no_metadata_write_on_upload_failure (file : Option String)
    (titleRaw captionRaw locationRaw peopleRaw : String)
    (containerOutcome : Except String Unit) (uploadOutcome : Except String String)
    (nowMs : Nat) (createdAt : String) :
    (∀ e, uploadOutcome = .error e →
      (postPhoto file titleRaw captionRaw locationRaw peopleRaw
        containerOutcome uploadOutcome nowMs createdAt).2 = []) ∧
    ((postPhoto file titleRaw captionRaw locationRaw peopleRaw
        containerOutcome uploadOutcome nowMs createdAt).2 ≠ [] →
      ∃ url, uploadOutcome = .ok url) := by
  constructor
  · rintro e rfl
    unfold postPhoto
    cases file with
    | none => rfl
    | some originalname =>
      by_cases ht : jsTrim titleRaw = ""
      · simp [ht]
      · cases containerOutcome with
        | error _ => simp [ht]
        | ok _ => simp [ht]
  · intro hne
    cases uploadOutcome with
    | ok url => exact ⟨url, rfl⟩
    | error e =>
      unfold postPhoto at hne
      cases file with
      | none => exact absurd rfl hne
      | some originalname =>
        by_cases ht : jsTrim titleRaw = ""
        · simp [ht] at hne
        · cases containerOutcome with
          | error _ => simp [ht] at hne
          | ok _ => simp [ht] at hne

/-- Witness for C6: a request with a valid file and title whose upload
fails performs no metadata write. -/
theorem no_metadata_write_on_upload_failure_witness :
    (postPhoto (some "x.jpg") "Sunset" "" "" ""
      (.ok ()) (.error "boom") 5 "t").2 = [] :=
  (no_metadata_write_on_upload_failure (some "x.jpg") "Sunset" "" "" ""
    (.ok ()) (.error "boom") 5 "t").1 "boom" rfl

/-- Counterexample for C8: in `src/index.js` the comment id is
`Date.now() + "-" + randomSuffix` with no photo-id part, so the id of a
comment accepted for photo `"p1"` does not begin with `"p1-"`. -/
theorem comment_id_missing_photo_part :
    (commentDocOf (postCommentIndex [] "p1" none (some "hi") 100 "ab" "t").1).id
      = "100-ab" ∧
    ¬("p1-".data <+: "100-ab".data) := by
  constructor
  · decide
  · decide

/-- C8 (amended): comment ids built by `src/unnamed/part_001` have the
form `{photoId}-{timestamp}-{randomSuffix}` and in particular begin with
the photo identifier, while the `src/index.js` and `src/unnamed/part_000`
variants build `{timestamp}-{randomSuffix}` without the photo-id part. -/
theorem comment_id_formats (store : List CommentDoc) (pid : String)
    (nameB textB : Option String) (nowMs : Nat) (rand : String) (ts : String)
    (h : jsTrim (jsOr textB "") ≠ "") :
    (commentDocOf (postCommentPart001 store pid nameB textB nowMs rand ts).1).id
      = pid ++ "-" ++ toString nowMs ++ "-" ++ rand ∧
    (commentDocOf (postCommentIndex store pid nameB textB nowMs rand ts).1).id
      = toString nowMs ++ "-" ++ rand := by
  have hslice : jsSlice 1000 (jsTrim (jsOr textB "")) ≠ "" := by
    intro hc
    exact h ((jsSlice_empty_iff 1000 _ (by decide)).mp hc)
  constructor
  · unfold postCommentPart001
    rw [if_neg h]
    rfl
  · unfold postCommentIndex
    rw [if_neg hslice]
    rfl

/-- Witness for C8's amended theorem: concrete ids of the two variants
for photo `"p1"`, timestamp 100 and suffix `"ab"`. -/
theorem comment_id_formats_witness :
    (commentDocOf (postCommentPart001 [] "p1" none (some "hi") 100 "ab" "t").1).id
      = "p1" ++ "-" ++ toString 100 ++ "-" ++ "ab" ∧
    (commentDocOf (postCommentIndex [] "p1" none (some "hi") 100 "ab" "t").1).id
      = toString 100 ++ "-" ++ "ab" :=
  comment_id_formats [] "p1" none (some "hi") 100 "ab" "t" (by decide)

/-- Counterexample for C9: `src/unnamed/part_001` stores the comment name
without the 80-character cap — a request with an 81-character name is
accepted and stores all 81 characters (and its text is likewise stored
uncapped). -/
theorem comment_name_cap_missing_part001 :
    (commentDocOf (postCommentPart001 [] "p"
        (some (String.mk (List.replicate 81 'a'))) (some "hi") 1 "r" "t").1).name.length
      = 81 ∧
    ¬((commentDocOf (postCommentPart001 [] "p"
        (some (String.mk (List.replicate 81 'a'))) (some "hi") 1 "r" "t").1).name.length
      ≤ 80) := by
  constructor
  · decide
  · decide

/-- C9 (amended): a comment whose text trims to the empty string is
rejected by every variant with a 400 validation error and no write; an
accepted comment is appended to the store; `src/index.js` (and
`part_000`) store the trimmed text capped at 1000 characters and the
trimmed name capped at 80 characters, defaulting to `"Anonymous"` when
absent, while `src/unnamed/part_001` stores the trimmed text and name
with no length caps (the name still defaults to `"Anonymous"` when
absent). -/
theorem comment_validation_amended (store : List CommentDoc) (pid : String)
    (nameB textB : Option String) (nowMs : Nat) (rand : String) (ts : String) :
    (jsTrim (jsOr textB "") = "" →
      postCommentIndex store pid nameB textB nowMs rand ts
        = (.badRequest "text is required", store) ∧
      postCommentPart001 store pid nameB textB nowMs rand ts
        = (.badRequest "Comment text required", store)) ∧
    (jsTrim (jsOr textB "") ≠ "" →
      (∃ d, postCommentIndex store pid nameB textB nowMs rand ts
          = (.created d, store ++ [d]) ∧
        d.text = jsSlice 1000 (jsTrim (jsOr textB "")) ∧
        d.text.length ≤ 1000 ∧ d.name.length ≤ 80 ∧
        (nameB = none → d.name = "Anonymous")) ∧
      (∃ d, postCommentPart001 store pid nameB textB nowMs rand ts
          = (.created d, store ++ [d]) ∧
        d.text = jsTrim (jsOr textB "") ∧
        d.name = jsTrim (jsOr nameB "Anonymous") ∧
        (nameB = none → d.name = "Anonymous"))) := by
  constructor
  · intro h
    have hslice : jsSlice 1000 (jsTrim (jsOr textB "")) = "" := by
      rw [h]
      decide
    constructor
    · unfold postCommentIndex
      rw [if_pos hslice]
    · unfold postCommentPart001
      rw [if_pos h]
  · intro h
    have hslice : jsSlice 1000 (jsTrim (jsOr textB "")) ≠ "" := by
      intro hc
      exact h ((jsSlice_empty_iff 1000 _ (by decide)).mp hc)
    constructor
    · refine ⟨⟨toString nowMs ++ "-" ++ rand, pid,
          if jsSlice 80 (jsTrim (jsOr nameB "")) = "" then "Anonymous"
            else jsSlice 80 (jsTrim (jsOr nameB "")),
          jsSlice 1000 (jsTrim (jsOr textB "")), ts⟩, ?_, rfl, ?_, ?_, ?_⟩
      · unfold postCommentIndex
        rw [if_neg hslice]
      · unfold jsSlice
        simp [List.length_take_le]
      · dsimp only
        by_cases hn : jsSlice 80 (jsTrim (jsOr nameB "")) = ""
        · rw [if_pos hn]
          decide
        · rw [if_neg hn]
          unfold jsSlice
          simp [List.length_take_le]
      · rintro rfl
        dsimp only
        rw [if_pos (by decide)]
    · refine ⟨⟨pid ++ "-" ++ toString nowMs ++ "-" ++ rand, pid,
          jsTrim (jsOr nameB "Anonymous"), jsTrim (jsOr textB ""), ts⟩, ?_, rfl, rfl, ?_⟩
      · unfold postCommentPart001
        rw [if_neg h]
      · rintro rfl
        show jsTrim (jsOr none "Anonymous") = "Anonymous"
        decide

/-- Witness for C9's amended theorem: a rejected whitespace-only comment
and an accepted one (`"  hi  "` stored trimmed as `"hi"` with name
`"Anonymous"`). -/
theorem comment_validation_amended_witness :
    (postCommentIndex [] "p" none (some "   ") 1 "r" "t"
        = (.badRequest "text is required", []) ∧
      postCommentPart001 [] "p" none (some "   ") 1 "r" "t"
        = (.badRequest "Comment text required", [])) ∧
    (∃ d, postCommentIndex [] "p" none (some "  hi  ") 1 "r" "t"
        = (.created d, [] ++ [d]) ∧
      d.text = jsSlice 1000 (jsTrim (jsOr (some "  hi  ") "")) ∧
      d.text.length ≤ 1000 ∧ d.name.length ≤ 80 ∧
      ((none : Option String) = none → d.name = "Anonymous")) :=
  ⟨(comment_validation_amended [] "p" none (some "   ") 1 "r" "t").1 (by decide),
   ((comment_validation_amended [] "p" none (some "  hi  ") 1 "r" "t").2 (by decide)).1⟩

/-- C1: submitting any nonempty sequence of valid ratings for one
`(photoId, userKey)` pair to a store holding no rating for that pair
leaves exactly one stored record for the pair, whose identifier is the
deterministic composite `photoId::userKey` (the id `ratingDocFor`
carries), whose value is the coercion of the last submitted value and
whose `updatedAt` is the last submission's timestamp: each later
submission overwrites the prior record through the upsert instead of
creating a new one. -/
theorem rating_upsert_idempotent (store : List RatingDoc) (pid : String)
    (uk : Option String) (subs : List (JSValue × String)) (hne : subs ≠ [])
    (hval : ∀ p ∈ subs, (acceptedValue p.1).isSome = true)
    (hclean : ∀ d ∈ store, d.id ≠ ratingIdOf pid uk) :
    (submitRatings store pid uk subs).filter (fun d => d.id = ratingIdOf pid uk)
      = [ratingDocFor pid uk
          ((acceptedValue (subs.getLast hne).1).getD 0) (subs.getLast hne).2] := by
  have h := submitRatings_filter pid uk subs store hval hclean
  rw [List.getLast?_eq_getLast _ hne] at h
  exact h

/-- Witness for C1: two successive submissions (3 then 5) for photo
`"p"` and the default user key leave exactly one record, with value 5
and the second timestamp. -/
theorem rating_upsert_idempotent_witness :
    (submitRatings [] "p" none [(JSValue.num 3, "t1"), (JSValue.num 5, "t2")]).filter
        (fun d => d.id = ratingIdOf "p" none)
      = [ratingDocFor "p" none 5 "t2"] := by
  have h := rating_upsert_idempotent [] "p" none
    [(JSValue.num 3, "t1"), (JSValue.num 5, "t2")] (by decide) (by decide) (by decide)
  exact h.trans (by decide)

/-- C7: photo search with an empty or whitespace-only term runs the same
unfiltered newest-first query as the list endpoint and returns the
identical full list, while a non-empty term returns exactly the photos
whose title, caption or location contains the lowered term as a
case-insensitive substring, in the same newest-first order (the filtered
result is the filter of the full ordered list). -/
theorem search_matches_list (store : List PhotoDoc) (qraw : Option String) :
    (jsTrim (jsOr qraw "") = "" → searchPhotos store qraw = listPhotos store) ∧
    (jsTrim (jsOr qraw "") ≠ "" →
      searchPhotos store qraw
        = (listPhotos store).filter (matchesSearch (jsToLower (jsTrim (jsOr qraw ""))))) := by
  constructor
  · intro h
    simp only [searchPhotos, listPhotos, h]
    rfl
  · intro h
    have hq : jsToLower (jsTrim (jsOr qraw "")) ≠ "" := fun hc =>
      h ((jsToLower_empty_iff _).mp hc)
    simp only [searchPhotos, listPhotos]
    rw [if_neg hq]
    exact insertionSort_filter createdDesc
      (matchesSearch (jsToLower (jsTrim (jsOr qraw "")))) store

/-- Witness for C7: on a concrete three-photo store, a whitespace-only
term returns the full newest-first list and the term `" Sun "` returns
exactly the case-insensitive matches, in the same order. -/
theorem search_matches_list_witness :
    searchPhotos
        [⟨"1", "Sunset", "", "", [], "", "", "2024-01-01"⟩,
         ⟨"2", "Beach", "sUnny day", "", [], "", "", "2024-03-01"⟩,
         ⟨"3", "Forest", "", "", [], "", "", "2024-02-01"⟩] (some "   ")
      = [⟨"2", "Beach", "sUnny day", "", [], "", "", "2024-03-01"⟩,
         ⟨"3", "Forest", "", "", [], "", "", "2024-02-01"⟩,
         ⟨"1", "Sunset", "", "", [], "", "", "2024-01-01"⟩] ∧
    searchPhotos
        [⟨"1", "Sunset", "", "", [], "", "", "2024-01-01"⟩,
         ⟨"2", "Beach", "sUnny day", "", [], "", "", "2024-03-01"⟩,
         ⟨"3", "Forest", "", "", [], "", "", "2024-02-01"⟩] (some " Sun ")
      = [⟨"2", "Beach", "sUnny day", "", [], "", "", "2024-03-01"⟩,
         ⟨"1", "Sunset", "", "", [], "", "", "2024-01-01"⟩] := by
  constructor
  · have h := (search_matches_list
      [⟨"1", "Sunset", "", "", [], "", "", "2024-01-01"⟩,
       ⟨"2", "Beach", "sUnny day", "", [], "", "", "2024-03-01"⟩,
       ⟨"3", "Forest", "", "", [], "", "", "2024-02-01"⟩] (some "   ")).1 (by decide)
    exact h.trans (by decide)
  · have h := (search_matches_list
      [⟨"1", "Sunset", "", "", [], "", "", "2024-01-01"⟩,
       ⟨"2", "Beach", "sUnny day", "", [], "", "", "2024-03-01"⟩,
       ⟨"3", "Forest", "", "", [], "", "", "2024-02-01"⟩] (some " Sun ")).2 (by decide)
    exact h.trans (by decide)

end MediaRG
